import Mathlib

/-!
Shallow embedding of `optimalteatype.py` (class `MyGraph`): the typed tea
graph built by `build_graph` over a `networkx.Graph`, the keyword resolvers
`find_closest_node` / `find_closest_tea_node`, and the query functions
`recommend_tea_for_health`, `find_teas`, `find_shortest_paths`,
`get_teas_from_category`, `compare_teas`, `get_attribute`.

Python strings are modelled as Lean `String`s with explicit char-list
implementations of `str.lower`, `str.strip`, `str.split(",")` and the `in`
substring test, so that everything evaluates by kernel reduction.
A `networkx.Graph` is modelled as an insertion-ordered association list of
nodes, each carrying its attribute dict (also insertion-ordered) and its
adjacency list; `add_node` merges attributes (dict.update semantics) and
`add_edge` is a set-insert on both endpoints, exactly as networkx does.
`nx.shortest_path` is modelled by its hop-count (`bfsDist`, layered BFS);
the source only ever uses the length ordering and reachability of the paths.
A function that prints is modelled by a value describing its observable
report; a function that can raise (`row["Tea Type"]` → `KeyError`) returns
`Option`, `none` being the uncaught exception.
-/

namespace OptimalTeaType

/-! ## Python string primitives -/

/-- `str.lower()` (character-wise, as for the ASCII data of the repo). -/
def lowerStr (s : String) : String := ⟨s.data.map Char.toLower⟩

/-- Drop whitespace from both ends of a char list (`str.strip()`). -/
def trimList (l : List Char) : List Char :=
  ((l.dropWhile Char.isWhitespace).reverse.dropWhile Char.isWhitespace).reverse

/-- `str.strip()`. -/
def stripStr (s : String) : String := ⟨trimList s.data⟩

/-- `s.strip().lower()`, the key normalisation used throughout `build_graph`. -/
def normStr (s : String) : String := ⟨(trimList s.data).map Char.toLower⟩

/-- `str.split(",")` on a char list: `"".split(",") == [""]`,
a trailing separator yields a trailing empty token. -/
def splitCommaList (l : List Char) : List (List Char) :=
  l.foldr (fun c acc =>
    if c = ',' then [] :: acc
    else match acc with
      | a :: as => (c :: a) :: as
      | [] => [[c]]) [[]]

/-- `str.split(",")`. -/
def splitComma (s : String) : List String := (splitCommaList s.data).map String.mk

/-- Does `nee` start the list `hay`? -/
def startsList : List Char → List Char → Bool
  | _, [] => true
  | [], _ :: _ => false
  | a :: as, b :: bs => a == b && startsList as bs

/-- Substring containment on char lists (`nee in hay` for Python strings). -/
def hasSub (nee : List Char) : List Char → Bool
  | [] => startsList [] nee
  | c :: t => startsList (c :: t) nee || hasSub nee t

/-- Python `nee in hay` for strings. -/
def strIn (nee hay : String) : Bool := hasSub nee.data hay.data

/-- First-some choice on options (`a` if it is `some`, else `b`). -/
def oor {α : Type} (a b : Option α) : Option α :=
  match a with
  | some v => some v
  | none => b

/-! ## The graph model (`networkx.Graph`) -/

/-- A node's data in the graph: its attribute dict and its adjacency list,
both in insertion order (Python dicts preserve insertion order, and
overwriting a key keeps its position). -/
structure NodeData where
  attrs : List (String × String)
  nbrs : List String
deriving DecidableEq, Repr

/-- The graph: nodes keyed by name, in insertion order. -/
structure Graph where
  nodes : List (String × NodeData)
deriving DecidableEq, Repr

def emptyGraph : Graph := ⟨[]⟩

/-- First-occurrence lookup in an association list (Python dict access,
for the no-duplicate-key lists all our operations build). -/
def lookupA {α : Type} : List (String × α) → String → Option α
  | [], _ => none
  | (k', v) :: t, k => if k' = k then some v else lookupA t k

/-- Update the entry at `k` in place (keeping its position) or append a
fresh one built from `dflt` — the shared shape of dict writes. -/
def upsert {α : Type} (l : List (String × α)) (k : String) (f : α → α) (dflt : α) :
    List (String × α) :=
  match l with
  | [] => [(k, f dflt)]
  | (k', v) :: t => if k' = k then (k, f v) :: t else (k', v) :: upsert t k f dflt

/-- One attribute write `m[k] = v` (dict semantics: overwrite in place or
append). -/
def setAttr (m : List (String × String)) (k v : String) : List (String × String) :=
  upsert m k (fun _ => v) ""

/-- `dict.update(w)`: apply the writes of `w` left to right. -/
def applyWrites (m : List (String × String)) (w : List (String × String)) :
    List (String × String) :=
  w.foldl (fun m kv => setAttr m kv.1 kv.2) m

/-- The last value written for `a` in the write list `w`, if any. -/
def lookupLast (w : List (String × String)) (a : String) : Option String :=
  lookupA w.reverse a

/-- `G.add_node(k, **w)`: create the node if absent, then merge the
attributes (last writer wins, dict update). -/
def add_node (g : Graph) (k : String) (w : List (String × String)) : Graph :=
  ⟨upsert g.nodes k (fun d => { d with attrs := applyWrites d.attrs w }) ⟨[], []⟩⟩

/-- Ensure the node `k` exists (with empty attributes), as `add_edge` does
for missing endpoints. -/
def ensureNode (g : Graph) (k : String) : Graph :=
  ⟨upsert g.nodes k id ⟨[], []⟩⟩

/-- Append `v` to `u`'s adjacency if not already present. -/
def addNbr (g : Graph) (u v : String) : Graph :=
  ⟨upsert g.nodes u
    (fun d => if d.nbrs.contains v then d else { d with nbrs := d.nbrs ++ [v] }) ⟨[], []⟩⟩

/-- `G.add_edge(u, v)`: undirected, duplicate adds are no-ops, missing
endpoints are created as bare nodes. -/
def add_edge (g : Graph) (u v : String) : Graph :=
  addNbr (addNbr (ensureNode (ensureNode g u) v) u v) v u

/-- `G.nodes`: the node keys in insertion order. -/
def nodeKeys (g : Graph) : List String := g.nodes.map (·.1)

def entryOf (g : Graph) (k : String) : Option NodeData := lookupA g.nodes k

/-- `k in G`. -/
def hasNode (g : Graph) (k : String) : Bool := (entryOf g k).isSome

/-- `G.nodes[k].get(a)`: `none` when the node or the attribute is absent. -/
def getAttrOpt (g : Graph) (k a : String) : Option String :=
  match entryOf g k with
  | some d => lookupA d.attrs a
  | none => none

/-- `G.nodes[k].get("type")`. -/
def nodeType (g : Graph) (k : String) : Option String := getAttrOpt g k "type"

/-- `G.neighbors(k)` in insertion order (empty for a missing node). -/
def neighbors (g : Graph) (k : String) : List String :=
  match entryOf g k with
  | some d => d.nbrs
  | none => []

/-- `G.has_edge(u, v)` as adjacency-list membership. -/
def hasEdge (g : Graph) (u v : String) : Bool := (neighbors g u).contains v

/-- The direct neighbors of `k` whose `type` attribute is `ty`. -/
def neighborsOfType (g : Graph) (k ty : String) : List String :=
  (neighbors g k).filter (fun n => nodeType g n == some ty)

/-! ## The build inputs and `build_graph` as a sequence of graph writes

`build_graph(data, benefit_data)` only ever calls `add_node` and
`add_edge`, and which calls it makes depends on the inputs alone, never on
the current graph. It is therefore embedded as the op sequence those loops
emit, folded over the graph. -/

/-- One tea object of the catalog: the optional `name`, `caffeine`,
`origin`, `tasteDescription` entries and the `healthBenefits` list
(`dict.get` defaults live at the use sites, as in the source). -/
structure TeaData where
  name : Option String := none
  caffeine : Option String := none
  origin : Option String := none
  tasteDescription : Option String := none
  healthBenefits : List String := []
deriving DecidableEq, Repr

/-- The catalog: category name ↦ either its `types` mapping (tea key ↦ tea
data) or `none` for an entry that is not a dict with a `"types"` key
(skipped by the `isinstance`/`"types" in info` guard). -/
abbrev Catalog := List (String × Option (List (String × TeaData)))

/-- One association record; a missing `Tea Type` or `Health Benefit` key is
`none` (bracket access on it raises `KeyError`). -/
structure Row where
  teaType : Option String := none
  healthBenefit : Option String := none
deriving DecidableEq, Repr

/-- A primitive graph write: one `add_node` or `add_edge` call. -/
inductive Op where
  | node (k : String) (w : List (String × String))
  | edge (u v : String)
deriving DecidableEq, Repr

def applyOp (g : Graph) : Op → Graph
  | .node k w => add_node g k w
  | .edge u v => add_edge g u v

def applyOps (g : Graph) (ops : List Op) : Graph := ops.foldl applyOp g

/-- All attribute writes the op sequence makes to node `k`, in order. -/
def opWrites (ops : List Op) (k : String) : List (String × String) :=
  ops.flatMap (fun o =>
    match o with
    | .node k' w => if k' = k then w else []
    | .edge _ _ => [])

/-- Does the op sequence create / touch the node `k`? -/
def opMentions (ops : List Op) (k : String) : Bool :=
  ops.any (fun o =>
    match o with
    | .node k' _ => k' == k
    | .edge a b => a == k || b == k)

/-- Does the op sequence add the undirected edge `{u, v}`? -/
def opEdge (ops : List Op) (u v : String) : Bool :=
  ops.any (fun o =>
    match o with
    | .edge a b => (a == u && b == v) || (a == v && b == u)
    | .node _ _ => false)

/-- The writes of the taste loop: split on commas, strip each token, add a
`taste` node and a tea–taste edge per token (no token is dropped). Skipped
entirely when `tasteDescription` is absent or empty (Python falsiness). -/
def tasteOps (teaName : String) (td : TeaData) : List Op :=
  match td.tasteDescription with
  | some taste =>
    if taste = "" then []
    else ((splitComma taste).map stripStr).flatMap (fun flavor =>
      [.node flavor [("type", "taste")], .edge teaName flavor])
  | none => []

/-- The writes of the catalog health-benefit loop. -/
def benefitOps (teaName : String) (td : TeaData) : List Op :=
  td.healthBenefits.flatMap (fun b =>
    [.node (normStr b) [("type", "health")], .edge teaName (normStr b)])

/-- The writes for one catalog tea: the tea node with its attributes, the
category–tea edge, then the taste and benefit loops. -/
def teaOps (categoryName teaKey : String) (td : TeaData) : List Op :=
  let teaName := normStr (td.name.getD teaKey)
  .node teaName [("type", "tea"), ("caffeine", td.caffeine.getD "N/A"),
    ("origin", td.origin.getD "Unknown"), ("taste", td.tasteDescription.getD "N/A")]
    :: .edge categoryName teaName
    :: (tasteOps teaName td ++ benefitOps teaName td)

/-- The writes of the whole catalog pass of `build_graph`. -/
def catalogOps (data : Catalog) : List Op :=
  data.flatMap (fun ci =>
    match ci.2 with
    | some types =>
      .node (normStr ci.1) [("type", "category")]
        :: types.flatMap (fun t => teaOps (normStr ci.1) t.1 t.2)
    | none => [])

/-- The writes of one association row, or `none` when `row["Tea Type"]` or
`row["Health Benefit"]` raises `KeyError`. -/
def rowOps (r : Row) : Option (List Op) :=
  match r.teaType, r.healthBenefit with
  | some ts, some bs =>
    let teas := (splitComma ts).map normStr
    let bens := (splitComma bs).map normStr
    some (teas.flatMap (fun t =>
      .node t [("type", "tea")]
        :: bens.flatMap (fun b => [.node b [("type", "health")], .edge t b])))
  | _, _ => none

/-- The writes of the association pass; `none` as soon as any row is
malformed (the exception propagates out of `build_graph`). -/
def rowsOps : List Row → Option (List Op)
  | [] => some []
  | r :: rs =>
    match rowOps r, rowsOps rs with
    | some os, some rest => some (os ++ rest)
    | _, _ => none

/-- `MyGraph.build_graph(data, benefit_data)` run on the graph `g`:
`some` of the built graph, or `none` when a malformed association record
raises `KeyError`. -/
def build_graph (data : Catalog) (benefit_data : List Row) (g : Graph) : Option Graph :=
  match rowsOps benefit_data with
  | some ros => some (applyOps g (catalogOps data ++ ros))
  | none => none

/-! ## The resolvers and queries -/

/-- `MyGraph.find_closest_node`: first scan for a case-insensitive exact
key match, then for a node whose lowered key contains the lowered keyword. -/
def find_closest_node (g : Graph) (keyword : String) : Option String :=
  let k := lowerStr keyword
  match (nodeKeys g).find? (fun node => k == lowerStr node) with
  | some n => some n
  | none => (nodeKeys g).find? (fun node => strIn k (lowerStr node))

/-- `MyGraph.find_closest_tea_node`: the first node (iteration order) whose
raw key contains the lowered keyword and whose type is `tea` or `category`
(`matches[0] if matches else None`). -/
def find_closest_tea_node (g : Graph) (tea_name : String) : Option String :=
  let k := lowerStr tea_name
  (nodeKeys g).find? (fun node =>
    strIn k node && (nodeType g node == some "tea" || nodeType g node == some "category"))

/-- `MyGraph.get_teas_from_category`: re-resolve the name, and if it is a
(truthy) `category` node, its `tea`-typed neighbors, else `[]`. (The
source's bracket access `nodes[n]["type"]` cannot fail on a built graph:
every node is created with a `type`.) -/
def get_teas_from_category (g : Graph) (category_name : String) : List String :=
  match find_closest_node g category_name with
  | some cn =>
    if cn ≠ "" ∧ nodeType g cn = some "category" then neighborsOfType g cn "tea"
    else []
  | none => []

/-- One BFS layer step, then recurse: `some d` once the target sits in the
frontier, `none` when the frontier dries up. `fuel` only bounds the
recursion; `nodes.length + 1` layers always suffice. -/
def bfsLoop (g : Graph) (target : String) :
    Nat → List String → List String → Nat → Option Nat
  | 0, _, _, _ => none
  | fuel + 1, frontier, visited, d =>
    if frontier.contains target then some d
    else
      let next := frontier.foldl (fun acc u =>
        acc ++ (neighbors g u).filter (fun v => !visited.contains v && !acc.contains v)) []
      match next with
      | [] => none
      | _ :: _ => bfsLoop g target fuel next (visited ++ next) (d + 1)

/-- The hop count of `nx.shortest_path(G, source, target)` (unweighted
BFS); `none` models `NetworkXNoPath`. -/
def bfsDist (g : Graph) (source target : String) : Option Nat :=
  bfsLoop g target (g.nodes.length + 1) [source] [source] 0

/-- Ordering recommendation pairs by path length (`key=lambda x: len(x[1])`;
the path of `nx.shortest_path` has `hops + 1` entries, so ordering by hop
count is the same ordering). -/
def pairLE (a b : String × Nat) : Prop := a.2 ≤ b.2

instance : DecidableRel pairLE := fun a b => Nat.decLe a.2 b.2

instance : IsTotal (String × Nat) pairLE := ⟨fun a b => Nat.le_total a.2 b.2⟩

instance : IsTrans (String × Nat) pairLE := ⟨fun _ _ _ => Nat.le_trans⟩

/-- The `(tea, path)` pairs `recommend_tea_for_health` collects: every
`tea`-typed node in iteration order, with its BFS distance from the health
node; unreachable teas are skipped (`NetworkXNoPath` → `continue`). -/
def teaPathPairs (g : Graph) (health_node : String) : List (String × Nat) :=
  (nodeKeys g).filterMap (fun node =>
    if nodeType g node = some "tea" then (bfsDist g health_node node).map (fun d => (node, d))
    else none)

/-- `MyGraph.recommend_tea_for_health`: empty on a missing / falsy /
non-`health` resolution, else the teas stably sorted by path length,
truncated to `max_results` (`list.sort` is stable; `insertionSort` computes
the same stable permutation). -/
def recommend_tea_for_health (g : Graph) (health_concern : String) (max_results : Nat) :
    List String :=
  match find_closest_node g health_concern with
  | none => []
  | some hn =>
    if hn = "" then []
    else if nodeType g hn = some "health" then
      ((List.insertionSort pairLE (teaPathPairs g hn)).take max_results).map (·.1)
    else []

/-- The per-concern adjacent-tea sets of `find_teas`: concerns that do not
resolve, resolve falsy, or resolve to a non-`health` node are dropped. -/
def teaSets (g : Graph) (health_concerns : List String) : List (List String) :=
  health_concerns.filterMap (fun concern =>
    match find_closest_node g concern with
    | some cn =>
      if cn ≠ "" ∧ nodeType g cn = some "health" then some (neighborsOfType g cn "tea")
      else none
    | none => none)

/-- `set.intersection(*tea_sets)` (membership-faithful, keeping the first
set's order). -/
def intersectAll : List (List String) → List String
  | [] => []
  | s :: rest => s.filter (fun t => rest.all (fun r => r.contains t))

/-- The `common_teas` of `find_teas`. -/
def commonTeas (g : Graph) (health_concerns : List String) : List String :=
  intersectAll (teaSets g health_concerns)

/-- `G.nodes[tea].get("taste", "")`. -/
def teaTasteAttr (g : Graph) (tea : String) : String := (getAttrOpt g tea "taste").getD ""

/-- `MyGraph.find_teas`: intersect the per-concern adjacent-tea sets; with
a (truthy) taste preference, keep the teas whose `taste` attribute contains
it case-insensitively, falling back to the whole intersection when none
does. -/
def find_teas (g : Graph) (health_concerns : List String)
    (taste_preference : Option String) : List String :=
  let sets := teaSets g health_concerns
  if sets.isEmpty then []
  else
    let common := intersectAll sets
    if common.isEmpty then []
    else
      match taste_preference with
      | some p =>
        if p = "" then common
        else
          let matching := common.filter (fun tea => strIn (lowerStr p) (lowerStr (teaTasteAttr g tea)))
          if matching.isEmpty then common else matching
      | none => common

/-- What `find_shortest_paths` reports for one entry of `tea_options`. -/
inductive TeaResult where
  /-- "No teas found in category '…'" -/
  | noTeasInCategory (category : String)
  /-- The printed shortest paths, as `(tea, hop count)` per reachable candidate. -/
  | pathsFound (paths : List (String × Nat))
  /-- "No path between '…' and '…'" -/
  | noPath
deriving DecidableEq, Repr

/-- The per-candidate path loop of `find_shortest_paths`: candidates not in
the graph are skipped, `NetworkXNoPath` is skipped, and `noPath` is
reported when nothing was found. -/
def pathResults (g : Graph) (hn : String) (candidates : List String) : TeaResult :=
  let found := candidates.filterMap (fun c =>
    if hasNode g c then (bfsDist g hn c).map (fun d => (c, d)) else none)
  if found.isEmpty then .noPath else .pathsFound found

/-- One `tea_options` entry of `find_shortest_paths`: a truthy `category`
resolution expands to the category's teas, any other resolution (of any
type) is the sole candidate, a failed resolution leaves the unusable
`[None]` candidate list (every candidate skipped). -/
def shortestPathsFor (g : Graph) (hn tea : String) : TeaResult :=
  match find_closest_tea_node g tea with
  | some t =>
    if t ≠ "" ∧ nodeType g t = some "category" then
      let tea_nodes := get_teas_from_category g t
      if tea_nodes.isEmpty then .noTeasInCategory t else pathResults g hn tea_nodes
    else pathResults g hn [t]
  | none => pathResults g hn []

/-- `MyGraph.find_shortest_paths`: `none` models the early
"Health concern '…' not found in the graph" return (taken exactly when
`find_closest_node` yields nothing or the falsy empty key); otherwise one
report per tea option. -/
def find_shortest_paths (g : Graph) (health_concern : String) (tea_options : List String) :
    Option (List TeaResult) :=
  match find_closest_node g health_concern with
  | some hn => if hn = "" then none else some (tea_options.map (shortestPathsFor g hn))
  | none => none

/-- `MyGraph.get_attribute`: sentinel strings for a missing node or a
missing attribute. -/
def get_attribute (g : Graph) (tea_node attr : String) : String :=
  match entryOf g tea_node with
  | some d => (lookupA d.attrs attr).getD "Attribute not found"
  | none => "Node not found"

/-- `MyGraph.compare_teas`: `none` models the early `return` (resolution
failure, falsy node, or an exact `"N/A"` value), else the attribute pair. -/
def compare_teas (g : Graph) (tea1 tea2 attr : String) : Option (String × String) :=
  match find_closest_tea_node g tea1, find_closest_tea_node g tea2 with
  | some n1, some n2 =>
    if n1 = "" ∨ n2 = "" then none
    else
      let v1 := get_attribute g n1 attr
      let v2 := get_attribute g n2 attr
      if v1 = "N/A" ∨ v2 = "N/A" then none else some (v1, v2)
  | _, _ => none

/-! ## Concrete inputs (used by witnesses and counterexamples) -/

/-- The spec's end-to-end catalog example. -/
def dEx : Catalog := [("Green", some [("sencha",
  { caffeine := some "medium", origin := some "Japan",
    tasteDescription := some "grassy, fresh", healthBenefits := ["Focus"] })])]

def rowEx : Row := { teaType := some "Sencha", healthBenefit := some "digestion" }

/-- An association record with no `Tea Type` key. -/
def badRow : Row := { healthBenefit := some "calm" }

def gEx : Graph := (build_graph dEx [rowEx] emptyGraph).getD emptyGraph

def tdC1 : TeaData := { tasteDescription := some "fresh" }

/-- A catalog whose tea has the taste token `fresh` (a `taste` node). -/
def dC1 : Catalog := [("green", some [("sencha", tdC1)])]

/-- An association record whose tea token collides with the taste node `fresh`. -/
def bC1 : List Row := [{ teaType := some "fresh", healthBenefit := some "calm" }]

def gC1 : Graph := (build_graph dC1 bC1 emptyGraph).getD emptyGraph

def rosC1 : List Op := (rowsOps bC1).getD []

/-- Two teas introduced only by an association record (no catalog metadata). -/
def bC3 : List Row :=
  [{ teaType := some "chamomile, lavender", healthBenefit := some "stress, sleep" }]

def gC3 : Graph := (build_graph [] bC3 emptyGraph).getD emptyGraph

/-- A catalog whose taste description resolves the keyword `grassy` to a
`taste` node. -/
def dC4 : Catalog := [("green", some [("sencha", { tasteDescription := some "grassy" })])]

def gC4 : Graph := (build_graph dC4 [] emptyGraph).getD emptyGraph

/-- Tea `a` is adjacent to both concerns, tea `b` only to `stress`. -/
def bC6 : List Row := [{ teaType := some "a", healthBenefit := some "stress, sleep" },
  { teaType := some "b", healthBenefit := some "stress" }]

def gC6 : Graph := (build_graph [] bC6 emptyGraph).getD emptyGraph

def tdC7 : TeaData := { tasteDescription := some "grassy," }

def typesC7 : List (String × TeaData) := [("sencha", tdC7)]

/-- A catalog tea whose taste description has a trailing comma (an empty
comma-token). -/
def dC7 : Catalog := [("green", some typesC7)]

def gC7 : Graph := (build_graph dC7 [] emptyGraph).getD emptyGraph

/-! ## Association-list and option lemmas -/

theorem oor_none_left {α : Type} (b : Option α) : oor none b = b := rfl

theorem oor_some {α : Type} (v : α) (b : Option α) : oor (some v) b = some v := rfl

theorem oor_none_right {α : Type} (a : Option α) : oor a none = a := by
  cases a <;> rfl

theorem oor_assoc {α : Type} (a b c : Option α) : oor (oor a b) c = oor a (oor b c) := by
  cases a <;> rfl

theorem oor_absorb {α : Type} (a b : Option α) : oor a (oor a b) = oor a b := by
  cases a <;> rfl

theorem lookupA_append {α : Type} (l₁ l₂ : List (String × α)) (k : String) :
    lookupA (l₁ ++ l₂) k = oor (lookupA l₁ k) (lookupA l₂ k) := by
  induction l₁ with
  | nil => rfl
  | cons h t ih =>
    simp only [List.cons_append, lookupA]
    by_cases hk : h.1 = k
    · simp [hk, oor]
    · simp [hk, ih]

theorem lookupA_upsert {α : Type} (l : List (String × α)) (k : String) (f : α → α) (dflt : α)
    (k' : String) :
    lookupA (upsert l k f dflt) k' =
      if k = k' then some (f ((lookupA l k).getD dflt)) else lookupA l k' := by
  induction l with
  | nil =>
    simp only [upsert, lookupA]
    by_cases hk : k = k' <;> simp [hk]
  | cons h t ih =>
    simp only [upsert]
    by_cases hh : h.1 = k
    · subst hh
      by_cases hk : h.1 = k'
      · simp [lookupA, hk]
      · simp [lookupA, hk]
    · by_cases hk2 : h.1 = k'
      · have h1 : ¬ k = k' := fun he => hh (he ▸ hk2)
        have h2 : ¬ k' = k := fun he => h1 he.symm
        simp [lookupA, hk2, hh, h1, h2]
      · simp [lookupA, hk2, hh, ih]

theorem lookupA_setAttr (m : List (String × String)) (b v a : String) :
    lookupA (setAttr m b v) a = if b = a then some v else lookupA m a := by
  simp [setAttr, lookupA_upsert]

theorem lookupLast_nil (a : String) : lookupLast [] a = none := rfl

theorem lookupLast_append (w₁ w₂ : List (String × String)) (a : String) :
    lookupLast (w₁ ++ w₂) a = oor (lookupLast w₂ a) (lookupLast w₁ a) := by
  simp [lookupLast, List.reverse_append, lookupA_append]

theorem lookupLast_cons (b v : String) (w : List (String × String)) (a : String) :
    lookupLast ((b, v) :: w) a = oor (lookupLast w a) (if b = a then some v else none) := by
  have : (b, v) :: w = [(b, v)] ++ w := rfl
  rw [this, lookupLast_append]
  simp [lookupLast, lookupA]

theorem lookupA_applyWrites (w m : List (String × String)) (a : String) :
    lookupA (applyWrites m w) a = oor (lookupLast w a) (lookupA m a) := by
  induction w generalizing m with
  | nil => rfl
  | cons kv w ih =>
    have step : applyWrites m (kv :: w) = applyWrites (setAttr m kv.1 kv.2) w := rfl
    rw [step, ih, lookupA_setAttr]
    rw [show kv = (kv.1, kv.2) from rfl, lookupLast_cons, oor_assoc]
    by_cases hb : kv.1 = a <;> simp [hb, oor]

/-! ## Per-operation graph lemmas -/

theorem getAttrOpt_eq_entry (g : Graph) (k a : String) :
    getAttrOpt g k a = lookupA ((entryOf g k).getD ⟨[], []⟩).attrs a := by
  unfold getAttrOpt
  cases entryOf g k <;> simp [lookupA]

theorem neighbors_eq_entry (g : Graph) (k : String) :
    neighbors g k = ((entryOf g k).getD ⟨[], []⟩).nbrs := by
  unfold neighbors
  cases entryOf g k <;> simp

theorem entryOf_add_node (g : Graph) (k : String) (w : List (String × String)) (k' : String) :
    entryOf (add_node g k w) k' =
      if k = k' then
        some { (entryOf g k).getD ⟨[], []⟩ with
                attrs := applyWrites ((entryOf g k).getD ⟨[], []⟩).attrs w }
      else entryOf g k' := by
  simp [entryOf, add_node, lookupA_upsert]

theorem entryOf_ensureNode (g : Graph) (k k' : String) :
    entryOf (ensureNode g k) k' =
      if k = k' then some ((entryOf g k).getD ⟨[], []⟩) else entryOf g k' := by
  simp [entryOf, ensureNode, lookupA_upsert]

theorem entryOf_addNbr (g : Graph) (u v : String) (k' : String) :
    entryOf (addNbr g u v) k' =
      if u = k' then
        some (if ((entryOf g u).getD ⟨[], []⟩).nbrs.contains v then (entryOf g u).getD ⟨[], []⟩
              else { (entryOf g u).getD ⟨[], []⟩ with
                      nbrs := ((entryOf g u).getD ⟨[], []⟩).nbrs ++ [v] })
      else entryOf g k' := by
  simp [entryOf, addNbr, lookupA_upsert]

theorem getAttrOpt_add_node (g : Graph) (k : String) (w : List (String × String))
    (k' a : String) :
    getAttrOpt (add_node g k w) k' a =
      if k = k' then oor (lookupLast w a) (getAttrOpt g k' a) else getAttrOpt g k' a := by
  rw [getAttrOpt_eq_entry, entryOf_add_node]
  by_cases hk : k = k'
  · subst hk
    simp [lookupA_applyWrites, getAttrOpt_eq_entry]
  · simp [hk, getAttrOpt_eq_entry]

theorem getAttrOpt_ensureNode (g : Graph) (k k' a : String) :
    getAttrOpt (ensureNode g k) k' a = getAttrOpt g k' a := by
  rw [getAttrOpt_eq_entry, entryOf_ensureNode]
  by_cases hk : k = k'
  · subst hk; simp [getAttrOpt_eq_entry]
  · simp [hk, getAttrOpt_eq_entry]

theorem getAttrOpt_addNbr (g : Graph) (u v k a : String) :
    getAttrOpt (addNbr g u v) k a = getAttrOpt g k a := by
  rw [getAttrOpt_eq_entry, entryOf_addNbr]
  by_cases hu : u = k
  · subst hu
    by_cases hc : v ∈ ((entryOf g u).getD ⟨[], []⟩).nbrs <;>
      simp [hc, getAttrOpt_eq_entry]
  · simp [hu, getAttrOpt_eq_entry]

theorem getAttrOpt_add_edge (g : Graph) (u v k a : String) :
    getAttrOpt (add_edge g u v) k a = getAttrOpt g k a := by
  simp [add_edge, getAttrOpt_addNbr, getAttrOpt_ensureNode]

theorem neighbors_add_node (g : Graph) (k : String) (w : List (String × String)) (k' : String) :
    neighbors (add_node g k w) k' = neighbors g k' := by
  rw [neighbors_eq_entry, entryOf_add_node]
  by_cases hk : k = k'
  · subst hk; simp [neighbors_eq_entry]
  · simp [hk, neighbors_eq_entry]

theorem neighbors_ensureNode (g : Graph) (k k' : String) :
    neighbors (ensureNode g k) k' = neighbors g k' := by
  rw [neighbors_eq_entry, entryOf_ensureNode]
  by_cases hk : k = k'
  · subst hk; simp [neighbors_eq_entry]
  · simp [hk, neighbors_eq_entry]

theorem neighbors_addNbr (g : Graph) (u v k : String) :
    neighbors (addNbr g u v) k =
      if u = k then
        (if v ∈ neighbors g u then neighbors g u else neighbors g u ++ [v])
      else neighbors g k := by
  rw [neighbors_eq_entry, entryOf_addNbr]
  by_cases hu : u = k
  · subst hu
    by_cases hc : v ∈ ((entryOf g u).getD ⟨[], []⟩).nbrs <;>
      simp [hc, neighbors_eq_entry]
  · simp [hu, neighbors_eq_entry]

theorem mem_neighbors_addNbr (g : Graph) (u v x y : String) :
    y ∈ neighbors (addNbr g u v) x ↔ y ∈ neighbors g x ∨ (u = x ∧ v = y) := by
  by_cases hu : u = x
  · subst hu
    rw [neighbors_addNbr, if_pos rfl]
    by_cases hv : v ∈ neighbors g u
    · rw [if_pos hv]
      constructor
      · exact fun h => Or.inl h
      · intro h
        rcases h with h | h
        · exact h
        · exact h.2 ▸ hv
    · rw [if_neg hv]
      constructor
      · intro h
        rcases List.mem_append.mp h with h | h
        · exact Or.inl h
        · exact Or.inr ⟨rfl, (List.mem_singleton.mp h).symm⟩
      · intro h
        rcases h with h | h
        · exact List.mem_append.mpr (Or.inl h)
        · exact List.mem_append.mpr (Or.inr (List.mem_singleton.mpr h.2.symm))
  · rw [neighbors_addNbr, if_neg hu]
    constructor
    · exact fun h => Or.inl h
    · intro h
      rcases h with h | h
      · exact h
      · exact absurd h.1 hu

theorem mem_neighbors_add_edge (g : Graph) (u v x y : String) :
    y ∈ neighbors (add_edge g u v) x ↔
      y ∈ neighbors g x ∨ (u = x ∧ v = y) ∨ (v = x ∧ u = y) := by
  unfold add_edge
  rw [mem_neighbors_addNbr, mem_neighbors_addNbr, neighbors_ensureNode, neighbors_ensureNode]
  tauto

theorem hasEdge_iff_mem (g : Graph) (u v : String) :
    hasEdge g u v = true ↔ v ∈ neighbors g u := by
  simp [hasEdge]

theorem hasNode_iff_isSome (g : Graph) (k : String) :
    hasNode g k = true ↔ (entryOf g k).isSome = true := Iff.rfl

theorem hasNode_add_node (g : Graph) (k : String) (w : List (String × String)) (k' : String) :
    hasNode (add_node g k w) k' = true ↔ k = k' ∨ hasNode g k' = true := by
  rw [hasNode_iff_isSome, entryOf_add_node]
  by_cases hk : k = k' <;> simp [hk, hasNode_iff_isSome]

theorem hasNode_ensureNode (g : Graph) (k k' : String) :
    hasNode (ensureNode g k) k' = true ↔ k = k' ∨ hasNode g k' = true := by
  rw [hasNode_iff_isSome, entryOf_ensureNode]
  by_cases hk : k = k' <;> simp [hk, hasNode_iff_isSome]

theorem hasNode_addNbr (g : Graph) (u v k : String) :
    hasNode (addNbr g u v) k = true ↔ u = k ∨ hasNode g k = true := by
  rw [hasNode_iff_isSome, entryOf_addNbr]
  by_cases hu : u = k <;> simp [hu, hasNode_iff_isSome]

theorem hasNode_add_edge (g : Graph) (u v k : String) :
    hasNode (add_edge g u v) k = true ↔ u = k ∨ v = k ∨ hasNode g k = true := by
  unfold add_edge
  rw [hasNode_addNbr, hasNode_addNbr, hasNode_ensureNode, hasNode_ensureNode]
  tauto

/-! ## Characterising a whole op sequence -/

theorem applyOps_cons (g : Graph) (o : Op) (rest : List Op) :
    applyOps g (o :: rest) = applyOps (applyOp g o) rest := rfl

theorem hasNode_applyOps (ops : List Op) (g : Graph) (k : String) :
    hasNode (applyOps g ops) k = true ↔ hasNode g k = true ∨ opMentions ops k = true := by
  induction ops generalizing g with
  | nil => simp [applyOps, opMentions]
  | cons o rest ih =>
    rw [applyOps_cons, ih]
    cases o with
    | node k' w =>
      simp only [applyOp]
      rw [hasNode_add_node]
      simp only [opMentions, List.any_cons, Bool.or_eq_true, beq_iff_eq]
      tauto
    | edge u v =>
      simp only [applyOp]
      rw [hasNode_add_edge]
      simp only [opMentions, List.any_cons, Bool.or_eq_true, beq_iff_eq]
      tauto

theorem getAttrOpt_applyOps (ops : List Op) (g : Graph) (k a : String) :
    getAttrOpt (applyOps g ops) k a =
      oor (lookupLast (opWrites ops k) a) (getAttrOpt g k a) := by
  induction ops generalizing g with
  | nil => simp [applyOps, opWrites, lookupLast, lookupA, oor]
  | cons o rest ih =>
    rw [applyOps_cons, ih]
    cases o with
    | node k' w =>
      simp only [applyOp, opWrites, List.flatMap_cons]
      rw [getAttrOpt_add_node, lookupLast_append]
      by_cases hk : k' = k
      · rw [if_pos hk, if_pos hk]
        exact (oor_assoc _ _ _).symm
      · rw [if_neg hk, if_neg hk]
        simp only [lookupLast_nil, oor_none_right]
    | edge u v =>
      simp only [applyOp, opWrites, List.flatMap_cons]
      rw [getAttrOpt_add_edge]
      rfl

theorem hasEdge_applyOps (ops : List Op) (g : Graph) (u v : String) :
    hasEdge (applyOps g ops) u v = true ↔ hasEdge g u v = true ∨ opEdge ops u v = true := by
  induction ops generalizing g with
  | nil => simp [applyOps, opEdge]
  | cons o rest ih =>
    rw [applyOps_cons, ih]
    cases o with
    | node k w =>
      simp only [applyOp]
      rw [hasEdge_iff_mem, neighbors_add_node, ← hasEdge_iff_mem]
      simp only [opEdge, List.any_cons, Bool.or_eq_true]
      tauto
    | edge a b =>
      simp only [applyOp]
      rw [hasEdge_iff_mem, mem_neighbors_add_edge, ← hasEdge_iff_mem]
      simp only [opEdge, List.any_cons, Bool.or_eq_true, Bool.and_eq_true, beq_iff_eq]
      tauto

theorem lookupA_isSome_iff {α : Type} (l : List (String × α)) (k : String) :
    (lookupA l k).isSome = true ↔ k ∈ l.map (·.1) := by
  induction l with
  | nil => simp [lookupA]
  | cons h t ih =>
    simp only [lookupA, List.map_cons, List.mem_cons]
    by_cases hk : h.1 = k
    · simp [hk]
    · have : ¬ k = h.1 := fun he => hk he.symm
      simp [hk, this, ih]

theorem hasNode_iff_mem_nodeKeys (g : Graph) (k : String) :
    hasNode g k = true ↔ k ∈ nodeKeys g :=
  lookupA_isSome_iff g.nodes k

theorem find?_eq_some_split {α : Type} (p : α → Bool) (l : List α) (a : α)
    (h : l.find? p = some a) :
    p a = true ∧ ∃ l₁ l₂, l = l₁ ++ a :: l₂ ∧ ∀ x ∈ l₁, p x = false := by
  induction l with
  | nil => simp at h
  | cons b t ih =>
    by_cases hb : p b = true
    · rw [List.find?_cons_of_pos _ hb] at h
      cases h
      exact ⟨hb, [], t, rfl, by simp⟩
    · rw [List.find?_cons_of_neg _ (by simpa using hb)] at h
      obtain ⟨hpa, l₁, l₂, ht, hall⟩ := ih h
      refine ⟨hpa, b :: l₁, l₂, by rw [List.cons_append, ht], ?_⟩
      intro x hx
      rcases List.mem_cons.mp hx with rfl | hx
      · simpa using hb
      · exact hall x hx

theorem rowOps_eq_none (r : Row) (h : r.teaType = none ∨ r.healthBenefit = none) :
    rowOps r = none := by
  unfold rowOps
  rcases h with h | h
  · rw [h]
  · rw [h]
    cases r.teaType <;> rfl

theorem rowsOps_eq_none (rows : List Row) (r : Row) (hr : r ∈ rows)
    (hbad : r.teaType = none ∨ r.healthBenefit = none) : rowsOps rows = none := by
  induction rows with
  | nil => cases hr
  | cons s t ih =>
    rcases List.mem_cons.mp hr with h | h
    · subst h
      unfold rowsOps
      rw [rowOps_eq_none _ hbad]
    · unfold rowsOps
      rw [ih h]
      cases rowOps s <;> rfl

theorem build_graph_eq (data : Catalog) (rows : List Row) (ros : List Op) (g : Graph)
    (h : rowsOps rows = some ros) :
    build_graph data rows g = some (applyOps g (catalogOps data ++ ros)) := by
  unfold build_graph
  rw [h]

/-! ## C1 — node types under re-insertion -/

/-- C1 (counterexample): the taste node `fresh` of the catalog `dC1` has type
`taste` after the catalog-only build, but re-inserting it as a tea token of
the association record `bC1` overwrites its type to `tea` — the type assigned
at first creation is not preserved. -/
theorem c1_type_overwritten_counterexample :
    (build_graph dC1 [] emptyGraph).map (fun g => nodeType g "fresh") = some (some "taste") ∧
    (build_graph dC1 bC1 emptyGraph).map (fun g => nodeType g "fresh") = some (some "tea") := by
  constructor <;> rfl

/-- C1 (amended): a node's `type` is not set once at creation: like every other
attribute it is last-writer-wins — after a successful build a node's final
`type` is the last `type` value among all the `add_node` writes the build makes
for that key (so a catalog node later re-inserted as an association tea/health
token takes the association's type; it keeps its creation type only when the
two coincide). -/
theorem c1_type_last_writer_wins (data : Catalog) (benefit_data : List Row)
    (ros : List Op) (g : Graph)
    (hrows : rowsOps benefit_data = some ros)
    (hbuild : build_graph data benefit_data emptyGraph = some g) (k : String) :
    nodeType g k = lookupLast (opWrites (catalogOps data ++ ros) k) "type" := by
  rw [build_graph_eq data benefit_data ros emptyGraph hrows] at hbuild
  obtain rfl := Option.some.inj hbuild
  show getAttrOpt (applyOps emptyGraph (catalogOps data ++ ros)) k "type" = _
  rw [getAttrOpt_applyOps]
  rw [show getAttrOpt emptyGraph k "type" = none from rfl, oor_none_right]

theorem c1_type_last_writer_wins_witness :
    nodeType gC1 "fresh" = lookupLast (opWrites (catalogOps dC1 ++ rosC1) "fresh") "type" :=
  c1_type_last_writer_wins dC1 bC1 rosC1 gC1 (by decide) (by decide) "fresh"

/-! ## C2 — malformed association records -/

/-- C2 (counterexample): with the record lacking `Tea Type` present the whole
load aborts (`KeyError`, modelled `none`); the result is not the graph built
from the same input with the malformed record removed (which succeeds). -/
theorem c2_malformed_aborts_counterexample :
    build_graph dEx [rowEx, badRow] emptyGraph = none ∧
    (build_graph dEx [rowEx] emptyGraph).isSome = true := by
  constructor <;> rfl

/-- C2 (amended): `build_graph` does not skip a record lacking `Tea Type` or
`Health Benefit`: the bracket access raises `KeyError` and the whole load
aborts with no resulting graph. -/
theorem c2_malformed_record_aborts_build (data : Catalog) (benefit_data : List Row)
    (g : Graph) (r : Row) (hr : r ∈ benefit_data)
    (hbad : r.teaType = none ∨ r.healthBenefit = none) :
    build_graph data benefit_data g = none := by
  unfold build_graph
  rw [rowsOps_eq_none benefit_data r hr hbad]

theorem c2_malformed_record_aborts_build_witness :
    build_graph dEx [badRow] emptyGraph = none :=
  c2_malformed_record_aborts_build dEx [badRow] emptyGraph badRow
    (List.mem_singleton.mpr rfl) (Or.inl rfl)

/-! ## C4 — the concern check of `find_shortest_paths` -/

/-- C4 (counterexample): the keyword `grassy` resolves to a `taste` node, not a
`health` node, yet `find_shortest_paths` does not report "not found": it
computes and reports a shortest path from that non-health node. -/
theorem c4_nonhealth_counterexample :
    nodeType gC4 "grassy" = some "taste" ∧
    find_shortest_paths gC4 "grassy" ["sencha"] =
      some [.pathsFound [("sencha", 1)]] := by
  constructor <;> rfl

/-- C4 (amended): `find_shortest_paths` reports "not found" exactly when the
concern keyword resolves to no node at all (or to the falsy empty-string key);
no `health` type check is made, and any other resolved node — of any type —
proceeds to the per-tea path computation from that node. -/
theorem c4_not_found_iff_unresolved (g : Graph) (health_concern : String)
    (tea_options : List String) :
    (find_shortest_paths g health_concern tea_options = none ↔
      (find_closest_node g health_concern = none ∨
       find_closest_node g health_concern = some "")) ∧
    (∀ hn, find_closest_node g health_concern = some hn → hn ≠ "" →
      find_shortest_paths g health_concern tea_options =
        some (tea_options.map (shortestPathsFor g hn))) := by
  unfold find_shortest_paths
  cases hres : find_closest_node g health_concern with
  | none => simp
  | some hn =>
    dsimp only
    by_cases h0 : hn = ""
    · subst h0
      simp
    · rw [if_neg h0]
      constructor
      · simp [h0]
      · intro hn' hsome hne
        obtain rfl := Option.some.inj hsome
        rfl

/-! ## C7 — taste tokens are not skipped -/

theorem mem_teaOps_of_mem_tasteOps (catName teaKey : String) (td : TeaData) (o : Op)
    (ho : o ∈ tasteOps (normStr (td.name.getD teaKey)) td) :
    o ∈ teaOps catName teaKey td := by
  simp only [teaOps]
  exact List.mem_cons.mpr (Or.inr (List.mem_cons.mpr (Or.inr
    (List.mem_append.mpr (Or.inl ho)))))

theorem mem_catalogOps_of_mem_teaOps (data : Catalog) (cat : String)
    (types : List (String × TeaData)) (teaKey : String) (td : TeaData) (o : Op)
    (hc : (cat, some types) ∈ data) (ht : (teaKey, td) ∈ types)
    (ho : o ∈ teaOps (normStr cat) teaKey td) : o ∈ catalogOps data := by
  unfold catalogOps
  refine List.mem_flatMap.mpr ⟨(cat, some types), hc, ?_⟩
  exact List.mem_cons.mpr (Or.inr (List.mem_flatMap.mpr ⟨(teaKey, td), ht, ho⟩))

theorem mem_tasteOps_of_token (teaName : String) (td : TeaData) (s tok : String)
    (hs : td.tasteDescription = some s) (hsne : s ≠ "")
    (htok : tok ∈ (splitComma s).map stripStr) :
    Op.node tok [("type", "taste")] ∈ tasteOps teaName td ∧
    Op.edge teaName tok ∈ tasteOps teaName td := by
  unfold tasteOps
  rw [hs]
  dsimp only
  rw [if_neg hsne]
  constructor <;> exact List.mem_flatMap.mpr ⟨tok, htok, by simp⟩

/-- C7 (counterexample): the trailing comma of `"grassy,"` produces the empty
comma-token, and `build_graph` does not skip it: a `taste` node keyed by the
empty string and a tea–taste edge to it are created. -/
theorem c7_empty_taste_token_counterexample :
    hasNode gC7 "" = true ∧ nodeType gC7 "" = some "taste" ∧
    hasEdge gC7 "sencha" "" = true := by
  refine ⟨rfl, rfl, rfl⟩

/-- C7 (amended): no taste token is skipped: for every comma-token of a
present, non-empty taste description — stripped of surrounding whitespace,
including tokens that are thereby empty — the build creates a `taste` node
keyed by the stripped token and an edge from the tea to it. -/
theorem c7_taste_tokens_not_skipped (data : Catalog) (benefit_data : List Row)
    (g g' : Graph) (cat : String) (types : List (String × TeaData))
    (teaKey : String) (td : TeaData) (s tok : String)
    (hc : (cat, some types) ∈ data) (ht : (teaKey, td) ∈ types)
    (hs : td.tasteDescription = some s) (hsne : s ≠ "")
    (htok : tok ∈ (splitComma s).map stripStr)
    (hbuild : build_graph data benefit_data g = some g') :
    hasNode g' tok = true ∧ hasEdge g' (normStr (td.name.getD teaKey)) tok = true := by
  unfold build_graph at hbuild
  cases hros : rowsOps benefit_data with
  | none => rw [hros] at hbuild; cases hbuild
  | some ros =>
    rw [hros] at hbuild
    obtain rfl := Option.some.inj hbuild
    obtain ⟨hnodeOp, hedgeOp⟩ :=
      mem_tasteOps_of_token (normStr (td.name.getD teaKey)) td s tok hs hsne htok
    have hnode : Op.node tok [("type", "taste")] ∈ catalogOps data ++ ros :=
      List.mem_append.mpr (Or.inl (mem_catalogOps_of_mem_teaOps data cat types teaKey td _
        hc ht (mem_teaOps_of_mem_tasteOps (normStr cat) teaKey td _ hnodeOp)))
    have hedge : Op.edge (normStr (td.name.getD teaKey)) tok ∈ catalogOps data ++ ros :=
      List.mem_append.mpr (Or.inl (mem_catalogOps_of_mem_teaOps data cat types teaKey td _
        hc ht (mem_teaOps_of_mem_tasteOps (normStr cat) teaKey td _ hedgeOp)))
    constructor
    · rw [hasNode_applyOps]
      right
      exact List.any_eq_true.mpr ⟨_, hnode, by simp⟩
    · rw [hasEdge_applyOps]
      right
      exact List.any_eq_true.mpr ⟨_, hedge, by simp⟩

theorem c7_taste_tokens_not_skipped_witness :
    hasNode gC7 "" = true ∧
    hasEdge gC7 (normStr (tdC7.name.getD "sencha")) "" = true :=
  c7_taste_tokens_not_skipped dC7 [] emptyGraph gC7 "green" typesC7 "sencha" tdC7
    "grassy," "" (by decide) (by decide) rfl (by decide) (by decide) (by decide)

/-! ## C10 — comparing teas on an absent attribute -/

theorem find_closest_tea_node_mem (g : Graph) (t n : String)
    (h : find_closest_tea_node g t = some n) : hasNode g n = true := by
  simp only [find_closest_tea_node] at h
  exact (hasNode_iff_mem_nodeKeys g n).mpr (List.mem_of_find?_eq_some h)

theorem get_attribute_absent (g : Graph) (n attr : String)
    (hm : hasNode g n = true) (ha : getAttrOpt g n attr = none) :
    get_attribute g n attr = "Attribute not found" := by
  unfold get_attribute
  unfold hasNode at hm
  unfold getAttrOpt at ha
  cases he : entryOf g n with
  | none => rw [he] at hm; simp at hm
  | some d =>
    rw [he] at ha
    dsimp only at ha ⊢
    rw [ha]
    rfl

/-- C10: when both tea keywords resolve through the type-constrained resolver
and the requested attribute is absent from both resolved nodes' attribute
dicts, `compare_teas` returns the pair of `"Attribute not found"` sentinels as
a normal result: the unavailable-data early return fires only on the exact
value `"N/A"`, which the absent-attribute sentinel is not. -/
theorem c10_compare_absent_attribute (g : Graph) (tea1 tea2 attr n1 n2 : String)
    (h1 : find_closest_tea_node g tea1 = some n1)
    (h2 : find_closest_tea_node g tea2 = some n2)
    (hn1 : n1 ≠ "") (hn2 : n2 ≠ "")
    (ha1 : getAttrOpt g n1 attr = none) (ha2 : getAttrOpt g n2 attr = none) :
    compare_teas g tea1 tea2 attr = some ("Attribute not found", "Attribute not found") := by
  have hv1 : get_attribute g n1 attr = "Attribute not found" :=
    get_attribute_absent g n1 attr (find_closest_tea_node_mem g tea1 n1 h1) ha1
  have hv2 : get_attribute g n2 attr = "Attribute not found" :=
    get_attribute_absent g n2 attr (find_closest_tea_node_mem g tea2 n2 h2) ha2
  unfold compare_teas
  rw [h1, h2]
  dsimp only
  rw [if_neg (by rintro (h | h); exacts [hn1 h, hn2 h])]
  rw [hv1, hv2]
  rw [if_neg (by rintro (h | h) <;> exact absurd h (by decide))]

theorem c10_compare_absent_attribute_witness :
    compare_teas gC3 "chamomile" "lavender" "caffeine" =
      some ("Attribute not found", "Attribute not found") :=
  c10_compare_absent_attribute gC3 "chamomile" "lavender" "caffeine" "chamomile" "lavender"
    (by decide) (by decide) (by decide) (by decide) (by decide) (by decide)

/-! ## C3 and C6 — `find_teas` -/

theorem contains_iff_mem (l : List String) (t : String) : l.contains t = true ↔ t ∈ l := by
  simp

theorem mem_intersectAll (l : List (List String)) (hl : l ≠ []) (t : String) :
    t ∈ intersectAll l ↔ ∀ s ∈ l, t ∈ s := by
  cases l with
  | nil => exact absurd rfl hl
  | cons s rest =>
    unfold intersectAll
    rw [List.mem_filter]
    constructor
    · rintro ⟨hs, hall⟩
      intro s' hs'
      rcases List.mem_cons.mp hs' with rfl | hs'
      · exact hs
      · exact (contains_iff_mem _ _).mp (List.all_eq_true.mp hall s' hs')
    · intro hall
      refine ⟨hall s (List.mem_cons_self s rest), List.all_eq_true.mpr ?_⟩
      intro s' hs'
      exact (contains_iff_mem _ _).mpr (hall s' (List.mem_cons.mpr (Or.inr hs')))

theorem mem_teaSets (g : Graph) (cs : List String) (s : List String) :
    s ∈ teaSets g cs ↔ ∃ c ∈ cs, ∃ cn, find_closest_node g c = some cn ∧ cn ≠ "" ∧
      nodeType g cn = some "health" ∧ s = neighborsOfType g cn "tea" := by
  unfold teaSets
  rw [List.mem_filterMap]
  constructor
  · rintro ⟨c, hc, hf⟩
    cases hres : find_closest_node g c with
    | none => rw [hres] at hf; cases hf
    | some cn =>
      rw [hres] at hf
      dsimp only at hf
      by_cases hcn : cn ≠ "" ∧ nodeType g cn = some "health"
      · rw [if_pos hcn] at hf
        obtain rfl := Option.some.inj hf
        exact ⟨c, hc, cn, hres, hcn.1, hcn.2, rfl⟩
      · rw [if_neg hcn] at hf; cases hf
  · rintro ⟨c, hc, cn, hres, hzero, hty, rfl⟩
    refine ⟨c, hc, ?_⟩
    rw [hres]
    dsimp only
    rw [if_pos ⟨hzero, hty⟩]

theorem mem_neighborsOfType (g : Graph) (cn ty t : String) :
    t ∈ neighborsOfType g cn ty ↔ t ∈ neighbors g cn ∧ nodeType g t = some ty := by
  unfold neighborsOfType
  rw [List.mem_filter]
  simp

theorem find_teas_no_pref (g : Graph) (cs : List String) (hne : teaSets g cs ≠ []) :
    find_teas g cs none = intersectAll (teaSets g cs) := by
  unfold find_teas
  rw [if_neg (by simpa [List.isEmpty_iff] using hne)]
  by_cases hc : (intersectAll (teaSets g cs)).isEmpty
  · rw [if_pos hc]
    exact (List.isEmpty_iff.mp hc).symm
  · rw [if_neg hc]

/-- C3: when the intersection of the resolved concerns' adjacent-tea sets is
non-empty and the (truthy) taste preference matches no tea of it, `find_teas`
falls back to the full unfiltered intersection — the very list the call
without preference returns — and in particular not the empty list. -/
theorem c3_taste_fallback (g : Graph) (health_concerns : List String) (p : String)
    (hp : p ≠ "")
    (hsets : teaSets g health_concerns ≠ [])
    (hcom : commonTeas g health_concerns ≠ [])
    (hnom : ∀ t ∈ commonTeas g health_concerns,
      strIn (lowerStr p) (lowerStr (teaTasteAttr g t)) = false) :
    find_teas g health_concerns (some p) = commonTeas g health_concerns ∧
    find_teas g health_concerns (some p) ≠ [] ∧
    find_teas g health_concerns (some p) = find_teas g health_concerns none := by
  have key : find_teas g health_concerns (some p) = commonTeas g health_concerns := by
    unfold find_teas
    rw [if_neg (by simpa [List.isEmpty_iff] using hsets)]
    rw [if_neg (by simpa [List.isEmpty_iff, commonTeas] using hcom)]
    dsimp only
    rw [if_neg hp]
    have hfilter : (intersectAll (teaSets g health_concerns)).filter
        (fun tea => strIn (lowerStr p) (lowerStr (teaTasteAttr g tea))) = [] := by
      rw [List.filter_eq_nil_iff]
      intro t ht
      simp [hnom t ht]
    rw [hfilter]
    rfl
  refine ⟨key, by rw [key]; exact hcom, ?_⟩
  rw [key, find_teas_no_pref g health_concerns hsets]
  rfl

theorem c3_taste_fallback_witness :
    find_teas gC3 ["stress", "sleep"] (some "citrus") = commonTeas gC3 ["stress", "sleep"] ∧
    find_teas gC3 ["stress", "sleep"] (some "citrus") ≠ [] ∧
    find_teas gC3 ["stress", "sleep"] (some "citrus") = find_teas gC3 ["stress", "sleep"] none :=
  c3_taste_fallback gC3 ["stress", "sleep"] "citrus" (by decide) (by decide) (by decide)
    (by decide)

/-- C6: given at least one concern resolved to a (truthy) `health` node,
`find_teas` without taste preference returns exactly the teas that are one-hop
neighbors of every resolved health-concern node — concerns that fail to
resolve, resolve falsy, or resolve to a non-health node impose no constraint
(they are silently dropped). -/
theorem c6_find_teas_intersection (g : Graph) (health_concerns : List String)
    (hne : teaSets g health_concerns ≠ []) (t : String) :
    t ∈ find_teas g health_concerns none ↔
      (∀ c ∈ health_concerns, ∀ cn, find_closest_node g c = some cn → cn ≠ "" →
        nodeType g cn = some "health" →
        (nodeType g t = some "tea" ∧ t ∈ neighbors g cn)) := by
  rw [find_teas_no_pref g health_concerns hne, mem_intersectAll _ hne]
  constructor
  · intro hall c hc cn hres h0 hty
    have hmem : neighborsOfType g cn "tea" ∈ teaSets g health_concerns :=
      (mem_teaSets _ _ _).mpr ⟨c, hc, cn, hres, h0, hty, rfl⟩
    have h' := (mem_neighborsOfType g cn "tea" t).mp (hall _ hmem)
    exact ⟨h'.2, h'.1⟩
  · intro hr s hs
    obtain ⟨c, hc, cn, hres, h0, hty, rfl⟩ := (mem_teaSets _ _ _).mp hs
    obtain ⟨hta, hmem⟩ := hr c hc cn hres h0 hty
    exact (mem_neighborsOfType g cn "tea" t).mpr ⟨hmem, hta⟩

theorem c6_find_teas_intersection_witness :
    "a" ∈ find_teas gC6 ["stress", "sleep"] none ↔
      (∀ c ∈ ["stress", "sleep"], ∀ cn, find_closest_node gC6 c = some cn → cn ≠ "" →
        nodeType gC6 cn = some "health" →
        (nodeType gC6 "a" = some "tea" ∧ "a" ∈ neighbors gC6 cn)) :=
  c6_find_teas_intersection gC6 ["stress", "sleep"] (by decide) "a"

/-! ## C9 — idempotence of the build -/

/-- C9: re-running `build_graph` with the same inputs on the already-built
graph succeeds and changes nothing observable: the node set, every node's
attributes, and the edge set are those of the single build (duplicate edge
adds are no-ops, and re-merging the same attribute writes leaves every final
value in place). -/
theorem c9_build_graph_idempotent (data : Catalog) (benefit_data : List Row) (g1 : Graph)
    (h : build_graph data benefit_data emptyGraph = some g1) :
    ∃ g2, build_graph data benefit_data g1 = some g2 ∧
      (∀ k, hasNode g2 k = true ↔ hasNode g1 k = true) ∧
      (∀ k a, getAttrOpt g2 k a = getAttrOpt g1 k a) ∧
      (∀ u v, hasEdge g2 u v = true ↔ hasEdge g1 u v = true) := by
  unfold build_graph at h ⊢
  cases hros : rowsOps benefit_data with
  | none => rw [hros] at h; cases h
  | some ros =>
    rw [hros] at h
    dsimp only at h ⊢
    obtain rfl := Option.some.inj h
    refine ⟨_, rfl, ?_, ?_, ?_⟩
    · intro k
      rw [hasNode_applyOps, hasNode_applyOps]
      have hempty : ¬ hasNode emptyGraph k = true := by
        simp [hasNode, emptyGraph, entryOf, lookupA]
      tauto
    · intro k a
      have h1 : getAttrOpt (applyOps emptyGraph (catalogOps data ++ ros)) k a
          = oor (lookupLast (opWrites (catalogOps data ++ ros) k) a) none := by
        rw [getAttrOpt_applyOps]
        rfl
      rw [getAttrOpt_applyOps, h1, oor_absorb]
    · intro u v
      rw [hasEdge_applyOps, hasEdge_applyOps]
      have hempty : ¬ hasEdge emptyGraph u v = true := by
        simp [hasEdge, neighbors, emptyGraph, entryOf, lookupA]
      tauto

theorem c9_build_graph_idempotent_witness :
    ∃ g2, build_graph dEx [rowEx] gEx = some g2 ∧
      (∀ k, hasNode g2 k = true ↔ hasNode gEx k = true) ∧
      (∀ k a, getAttrOpt g2 k a = getAttrOpt gEx k a) ∧
      (∀ u v, hasEdge g2 u v = true ↔ hasEdge gEx u v = true) :=
  c9_build_graph_idempotent dEx [rowEx] gEx (by decide)

/-! ## C8 — resolver matching order -/

/-- C8: `find_closest_node` returns a node whose normalized key equals the
normalized keyword whenever one exists (exact match wins over substring
containment); only when no exact match exists does it return the first node,
in the graph's stable iteration order, whose lowered key contains the lowered
keyword (every earlier node does not contain it); and it returns `none` — a
value, not an exception — when nothing matches. -/
theorem c8_find_closest_node_matching (g : Graph) (keyword : String) :
    ((∃ n ∈ nodeKeys g, lowerStr n = lowerStr keyword) →
      ∃ n, find_closest_node g keyword = some n ∧ lowerStr n = lowerStr keyword) ∧
    ((∀ n ∈ nodeKeys g, lowerStr n ≠ lowerStr keyword) →
      ((∀ n ∈ nodeKeys g, strIn (lowerStr keyword) (lowerStr n) = false) →
        find_closest_node g keyword = none) ∧
      (∀ n, find_closest_node g keyword = some n →
        strIn (lowerStr keyword) (lowerStr n) = true ∧
        ∃ l₁ l₂, nodeKeys g = l₁ ++ n :: l₂ ∧
          ∀ m ∈ l₁, strIn (lowerStr keyword) (lowerStr m) = false)) := by
  constructor
  · rintro ⟨n, hn, he⟩
    have hsome : ((nodeKeys g).find? (fun node => lowerStr keyword == lowerStr node)).isSome
        = true := by
      rw [List.find?_isSome]
      exact ⟨n, hn, by simp [he]⟩
    obtain ⟨m, hm⟩ := Option.isSome_iff_exists.mp hsome
    refine ⟨m, ?_, ?_⟩
    · simp only [find_closest_node]
      rw [hm]
    · have := List.find?_some hm
      simp only [beq_iff_eq] at this
      exact this.symm
  · intro hnoexact
    have hnone : (nodeKeys g).find? (fun node => lowerStr keyword == lowerStr node) = none := by
      rw [List.find?_eq_none]
      intro x hx
      simp only [beq_iff_eq]
      exact fun he => hnoexact x hx he.symm
    constructor
    · intro hnosub
      simp only [find_closest_node]
      rw [hnone]
      dsimp only
      rw [List.find?_eq_none]
      intro x hx
      simp [hnosub x hx]
    · intro n hfind
      simp only [find_closest_node] at hfind
      rw [hnone] at hfind
      dsimp only at hfind
      obtain ⟨hp, l₁, l₂, hsplit, hfalse⟩ := find?_eq_some_split _ _ _ hfind
      exact ⟨hp, l₁, l₂, hsplit, hfalse⟩

/-! ## C5 — `recommend_tea_for_health` ordering -/

theorem mem_teaPathPairs (g : Graph) (hn : String) (x : String × Nat)
    (hx : x ∈ teaPathPairs g hn) :
    nodeType g x.1 = some "tea" ∧ bfsDist g hn x.1 = some x.2 := by
  unfold teaPathPairs at hx
  obtain ⟨n, hmem, hf⟩ := List.mem_filterMap.mp hx
  by_cases ht : nodeType g n = some "tea"
  · rw [if_pos ht] at hf
    cases hd : bfsDist g hn n with
    | none => rw [hd] at hf; cases hf
    | some d =>
      rw [hd] at hf
      obtain rfl := Option.some.inj hf
      exact ⟨ht, hd⟩
  · rw [if_neg ht] at hf; cases hf

theorem filter_orderedInsert_pairLE (d : Nat) (a : String × Nat) (l : List (String × Nat)) :
    (List.orderedInsert pairLE a l).filter (fun x => x.2 == d) =
      if a.2 = d then a :: l.filter (fun x => x.2 == d)
      else l.filter (fun x => x.2 == d) := by
  induction l with
  | nil =>
    by_cases had : a.2 = d <;>
      simp [List.orderedInsert, List.filter_cons, had]
  | cons b t ih =>
    rw [show List.orderedInsert pairLE a (b :: t) =
      if pairLE a b then a :: b :: t else b :: List.orderedInsert pairLE a t from rfl]
    by_cases hr : pairLE a b
    · rw [if_pos hr]
      by_cases had : a.2 = d
      · simp [List.filter_cons, had]
      · simp [List.filter_cons, had]
    · rw [if_neg hr]
      have hlt : b.2 < a.2 := Nat.lt_of_not_le hr
      by_cases had : a.2 = d
      · have hbd : ¬ b.2 = d :=
          fun h => absurd (h.trans had.symm) (Nat.ne_of_lt hlt)
        simp [List.filter_cons, ih, had, hbd]
      · simp [List.filter_cons, ih, had]

theorem filter_insertionSort_pairLE (d : Nat) (l : List (String × Nat)) :
    (List.insertionSort pairLE l).filter (fun x => x.2 == d) =
      l.filter (fun x => x.2 == d) := by
  induction l with
  | nil => rfl
  | cons a t ih =>
    rw [show List.insertionSort pairLE (a :: t) =
      List.orderedInsert pairLE a (List.insertionSort pairLE t) from rfl]
    rw [filter_orderedInsert_pairLE, List.filter_cons]
    by_cases had : a.2 = d
    · rw [if_pos had, ih, if_pos (by simpa using had)]
    · rw [if_neg had, ih, if_neg (by simpa using had)]

theorem map_fst_filter_teaPairs (g : Graph) (hn : String) (d : Nat) (L : List String) :
    ((L.filterMap (fun node => if nodeType g node = some "tea"
        then (bfsDist g hn node).map (fun dd => (node, dd)) else none)).filter
      (fun x => x.2 == d)).map (·.1)
      = L.filter (fun node => nodeType g node == some "tea" && bfsDist g hn node == some d) := by
  induction L with
  | nil => rfl
  | cons n t ih =>
    rw [List.filterMap_cons, List.filter_cons]
    by_cases ht : nodeType g n = some "tea"
    · cases hd : bfsDist g hn n with
      | none =>
        have hfn : (if nodeType g n = some "tea"
            then Option.map (fun dd => (n, dd)) none else none) = (none : Option (String × Nat)) := by
          rw [if_pos ht]
          rfl
        rw [hfn]
        dsimp only
        rw [ih, if_neg (by simp [ht])]
      | some dd =>
        have hfn : (if nodeType g n = some "tea"
            then Option.map (fun d2 => (n, d2)) (some dd) else none) = some (n, dd) := by
          rw [if_pos ht]
          rfl
        rw [hfn]
        dsimp only
        rw [List.filter_cons]
        by_cases hdd : dd = d
        · rw [if_pos (by simp [hdd]), List.map_cons, ih, if_pos (by simp [ht, hdd])]
        · rw [if_neg (by simp [hdd]), ih, if_neg (by simp [ht, hdd])]
    · have hfn : (if nodeType g n = some "tea"
          then (bfsDist g hn n).map (fun dd => (n, dd)) else none) = none := by
        rw [if_neg ht]
      rw [hfn]
      dsimp only
      rw [ih, if_neg (by simp [ht])]

/-- C5: `recommend_tea_for_health` returns `[]` when the concern resolves to
nothing, to the falsy empty key, or to a non-`health` node; otherwise it
returns at most `limit` teas, sorted non-decreasing by BFS hop count from the
concern node, ties keeping the node-iteration discovery order (for every hop
count `d`, the returned teas at distance `d` are a prefix of the `tea` nodes at
distance `d` in iteration order — the stable-sort property), every returned
name being a reachable `tea` node, and `[]` when no tea is reachable. -/
theorem c5_recommend_sorted_bounded (g : Graph) (health_concern : String) (limit : Nat) :
    (find_closest_node g health_concern = none →
      recommend_tea_for_health g health_concern limit = []) ∧
    (∀ hn, find_closest_node g health_concern = some hn →
      (hn = "" ∨ nodeType g hn ≠ some "health") →
      recommend_tea_for_health g health_concern limit = []) ∧
    (∀ hn, find_closest_node g health_concern = some hn → hn ≠ "" →
      nodeType g hn = some "health" →
      (recommend_tea_for_health g health_concern limit).length ≤ limit ∧
      List.Pairwise (fun a b => ∀ da db, bfsDist g hn a = some da →
        bfsDist g hn b = some db → da ≤ db)
        (recommend_tea_for_health g health_concern limit) ∧
      (∀ t ∈ recommend_tea_for_health g health_concern limit,
        nodeType g t = some "tea" ∧ (bfsDist g hn t).isSome = true) ∧
      (∀ d, ∃ rest, (recommend_tea_for_health g health_concern limit).filter
          (fun t => bfsDist g hn t == some d) ++ rest
        = (nodeKeys g).filter
            (fun n => nodeType g n == some "tea" && bfsDist g hn n == some d)) ∧
      ((∀ n ∈ nodeKeys g, nodeType g n = some "tea" → bfsDist g hn n = none) →
        recommend_tea_for_health g health_concern limit = [])) := by
  refine ⟨?_, ?_, ?_⟩
  · intro hres
    unfold recommend_tea_for_health
    rw [hres]
  · intro hn hres hbad
    unfold recommend_tea_for_health
    rw [hres]
    dsimp only
    rcases hbad with h0 | hty
    · rw [if_pos h0]
    · by_cases h0 : hn = ""
      · rw [if_pos h0]
      · rw [if_neg h0, if_neg hty]
  · intro hn hres h0 hty
    have hR : recommend_tea_for_health g health_concern limit =
        ((List.insertionSort pairLE (teaPathPairs g hn)).take limit).map (·.1) := by
      unfold recommend_tea_for_health
      rw [hres]
      dsimp only
      rw [if_neg h0, if_pos hty]
    have hmem_pairs : ∀ x ∈ (List.insertionSort pairLE (teaPathPairs g hn)).take limit,
        nodeType g x.1 = some "tea" ∧ bfsDist g hn x.1 = some x.2 := by
      intro x hx
      exact mem_teaPathPairs g hn x
        ((List.perm_insertionSort pairLE (teaPathPairs g hn)).mem_iff.mp
          (List.Sublist.mem hx (List.take_sublist _ _)))
    refine ⟨?_, ?_, ?_, ?_, ?_⟩
    · rw [hR, List.length_map]
      exact List.length_take_le _ _
    · rw [hR, List.pairwise_map]
      have hsorted : List.Pairwise pairLE
          ((List.insertionSort pairLE (teaPathPairs g hn)).take limit) :=
        List.Pairwise.sublist (List.take_sublist _ _)
          (List.sorted_insertionSort pairLE (teaPathPairs g hn))
      refine List.Pairwise.imp_of_mem ?_ hsorted
      intro a b ha hb hle da db hda hdb
      obtain ⟨-, ha2⟩ := hmem_pairs a ha
      obtain ⟨-, hb2⟩ := hmem_pairs b hb
      have e1 : da = a.2 := Option.some.inj (hda.symm.trans ha2)
      have e2 : db = b.2 := Option.some.inj (hdb.symm.trans hb2)
      rw [e1, e2]
      exact hle
    · intro t ht
      rw [hR] at ht
      obtain ⟨x, hx, rfl⟩ := List.mem_map.mp ht
      obtain ⟨h1, h2⟩ := hmem_pairs x hx
      exact ⟨h1, by rw [h2]; rfl⟩
    · intro d
      refine ⟨((List.insertionSort pairLE (teaPathPairs g hn)).drop limit).filter
        (fun x => x.2 == d) |>.map (·.1), ?_⟩
      rw [hR]
      rw [List.filter_map]
      have hcong : ((List.insertionSort pairLE (teaPathPairs g hn)).take limit).filter
            ((fun t => bfsDist g hn t == some d) ∘ (·.1))
          = ((List.insertionSort pairLE (teaPathPairs g hn)).take limit).filter
            (fun x => x.2 == d) := by
        apply List.filter_congr
        intro x hx
        obtain ⟨-, h2⟩ := hmem_pairs x hx
        simp [Function.comp, h2]
      rw [hcong, ← List.map_append, ← List.filter_append, List.take_append_drop,
        filter_insertionSort_pairLE]
      exact map_fst_filter_teaPairs g hn d (nodeKeys g)
    · intro hnoreach
      have hpairs : teaPathPairs g hn = [] := by
        unfold teaPathPairs
        rw [List.filterMap_eq_nil_iff]
        intro n hnmem
        by_cases ht : nodeType g n = some "tea"
        · rw [if_pos ht, hnoreach n hnmem ht]
          rfl
        · rw [if_neg ht]
      rw [hR, hpairs]
      simp

end OptimalTeaType
